import Mathlib

/-!
Shallow embedding of `cleanup.py` (wildfir3/imgclean): an image de-duplication
script.  Pure fragments of the script (hash comparison, similarity grouping,
cache line formatting and parsing, collision-avoiding renaming) are translated
into executable Lean definitions; filesystem state is passed explicitly as an
association list from path to file contents.  Theorems below settle the spec
claims against these definitions.
-/

namespace Cleanup

/-- Module constant `SIMILARITY_THRESH = 8` from `cleanup.py`. -/
def SIMILARITY_THRESH : Nat := 8

/-- Embedding of `hamming(h1, h2)`: XOR the two integers, then count set bits
with the Kernighan loop `while d: h += 1; d &= d - 1`.  The loop strictly
decreases `d`, so fuel equal to the initial value of `d` is always enough. -/
def hammingKernighan : Nat → Nat → Nat
  | 0, _ => 0
  | f + 1, d =>
    if d = 0 then 0 else 1 + hammingKernighan f (d &&& (d - 1))

def hamming (h1 h2 : Nat) : Nat :=
  hammingKernighan (h1 ^^^ h2) (h1 ^^^ h2)

/-- Embedding of class `FileInfo`: one record per scanned file.  `__init__`
sets `phash`, `width`, `height`, `crc32` to `None` (here `none`). -/
structure FileRecord where
  filepath : String
  phash : Option Nat
  width : Option Nat
  height : Option Nat
  crc32 : Option String
deriving DecidableEq, Repr

/-- A parsed cache entry as built by `read_cache`: the dict
`\x7b'mtime': ..., 'phash': ..., 'width': ..., 'height': ..., 'crc32': ...\x7d`. -/
structure CacheEntry where
  mtime : Nat
  phash : Option Nat
  width : Option Nat
  height : Option Nat
  crc32 : String
deriving DecidableEq, Repr

/-! ## Decimal rendering and parsing

`write_cache` renders integers with `'%s' % n` and `read_cache` parses them
with `int(...)`.  We embed decimal rendering with explicit fuel (each step
divides by 10, so fuel `n + 1` always suffices) and a digit-string parser. -/

def digitChar (n : Nat) : Char := Char.ofNat (48 + n)

def natToDecCharsAux : Nat → Nat → List Char
  | 0, _ => []
  | f + 1, n =>
    if n < 10 then [digitChar n] else natToDecCharsAux f (n / 10) ++ [digitChar (n % 10)]

def natToDecChars (n : Nat) : List Char := natToDecCharsAux (n + 1) n

/-- Decimal rendering of a natural number, as `'%s' % n` produces. -/
def natToDec (n : Nat) : String := String.mk (natToDecChars n)

def digitVal? (c : Char) : Option Nat :=
  if 48 ≤ c.toNat ∧ c.toNat ≤ 57 then some (c.toNat - 48) else none

def parseDigitsAcc : Nat → List Char → Option Nat
  | acc, [] => some acc
  | acc, c :: cs =>
    match digitVal? c with
    | some d => parseDigitsAcc (acc * 10 + d) cs
    | none => none

/-- Embedding of Python `int(s)` restricted to unsigned decimal strings: fails
on the empty string and on any non-digit character (Python raises
`ValueError` there; `int` also accepts signed input, which the cache writer
never produces and no theorem below depends on). -/
def pyNat? (s : String) : Option Nat :=
  match s.data with
  | [] => none
  | _ => parseDigitsAcc 0 s.data

theorem parseDigitsAcc_append (acc : Nat) (l₁ l₂ : List Char) :
    parseDigitsAcc acc (l₁ ++ l₂) =
      match parseDigitsAcc acc l₁ with
      | some a => parseDigitsAcc a l₂
      | none => none := by
  induction l₁ generalizing acc with
  | nil => simp [parseDigitsAcc]
  | cons c cs ih =>
    simp only [List.cons_append, parseDigitsAcc]
    cases digitVal? c with
    | none => rfl
    | some d => exact ih (acc * 10 + d)

theorem digitVal?_digitChar (n : Nat) (h : n < 10) : digitVal? (digitChar n) = some n := by
  interval_cases n <;> rfl

theorem parseDigitsAcc_natToDecCharsAux (f : Nat) :
    ∀ n acc, n < f → parseDigitsAcc acc (natToDecCharsAux f n) = some (acc * 10 ^ (natToDecCharsAux f n).length + n) := by
  induction f with
  | zero => intro n acc h; omega
  | succ f ih =>
    intro n acc _
    by_cases h10 : n < 10
    · simp only [natToDecCharsAux, if_pos h10, parseDigitsAcc, digitVal?_digitChar n h10]
      simp [parseDigitsAcc]
    · have hlt : n / 10 < f := by
        have h1 : n / 10 < n := Nat.div_lt_self (by omega) (by omega)
        omega
      simp only [natToDecCharsAux, if_neg h10]
      rw [parseDigitsAcc_append]
      rw [ih (n / 10) acc hlt]
      have hd : n % 10 < 10 := Nat.mod_lt _ (by omega)
      simp only [parseDigitsAcc, digitVal?_digitChar _ hd]
      simp only [parseDigitsAcc, List.length_append, List.length_singleton]
      congr 1
      have : (acc * 10 ^ (natToDecCharsAux f (n / 10)).length + n / 10) * 10 + n % 10
          = acc * (10 ^ (natToDecCharsAux f (n / 10)).length * 10) + (n / 10 * 10 + n % 10) := by
        ring
      have h2 : n / 10 * 10 + n % 10 = n := by omega
      rw [this, h2, pow_succ]

theorem parseDigitsAcc_natToDecChars (n : Nat) :
    parseDigitsAcc 0 (natToDecChars n) = some n := by
  have := parseDigitsAcc_natToDecCharsAux (n + 1) n 0 (Nat.lt_succ_self n)
  simpa [natToDecChars] using this

theorem natToDecChars_ne_nil (n : Nat) : natToDecChars n ≠ [] := by
  unfold natToDecChars natToDecCharsAux
  by_cases h : n < 10 <;> simp [h]

theorem pyNat?_natToDec (n : Nat) : pyNat? (natToDec n) = some n := by
  unfold pyNat? natToDec
  have hne := natToDecChars_ne_nil n
  cases h : natToDecChars n with
  | nil => exact absurd h hne
  | cons c cs =>
    simp only []
    rw [← h]
    exact parseDigitsAcc_natToDecChars n

theorem natToDecChars_injective : Function.Injective natToDecChars := by
  intro a b h
  have ha := parseDigitsAcc_natToDecChars a
  have hb := parseDigitsAcc_natToDecChars b
  rw [h, hb] at ha
  exact (Option.some_inj.mp ha).symm

/-! ## Path helpers

Embeddings of the `os.path` (posixpath) primitives the script uses:
`os.path.dirname`, `os.path.splitext`, `os.path.join`. -/

/-- Split a path at the last slash: returns the head (up to and including the
last `/`) and the tail (the basename, with no slash). -/
def pySplitPath (s : String) : String × String :=
  let rev := s.data.reverse
  (String.mk (rev.dropWhile (· ≠ '/')).reverse, String.mk (rev.takeWhile (· ≠ '/')).reverse)

/-- Embedding of `posixpath.dirname`: everything before the last slash, with
trailing slashes stripped unless the head is all slashes. -/
def pyDirname (s : String) : String :=
  let h := (pySplitPath s).1
  if h.data = [] then ""
  else if h.data.all (· = '/') then h
  else String.mk ((h.data.reverse.dropWhile (· = '/')).reverse)

/-- Embedding of `posixpath.splitext`: split off the extension at the last dot
of the basename, but only when some character of the basename strictly before
that dot is not itself a dot (so `.bashrc` has no extension). -/
def pySplitext (p : String) : String × String :=
  let head := (pySplitPath p).1
  let base := (pySplitPath p).2
  let baseRev := base.data.reverse
  let extRev := baseRev.takeWhile (· ≠ '.')
  match baseRev.dropWhile (· ≠ '.') with
  | [] => (p, "")
  | _ :: stemRev =>
    if stemRev.any (· ≠ '.') then
      (String.mk (head.data ++ stemRev.reverse), String.mk ('.' :: extRev.reverse))
    else (p, "")

def strStartsWithSlash (s : String) : Bool :=
  match s.data with
  | [] => false
  | c :: _ => c = '/'

def strEndsWithSlash (s : String) : Bool :=
  match s.data.getLast? with
  | some c => c = '/'
  | none => false

/-- Embedding of `posixpath.join` for one component: absolute components
replace the head; otherwise a `/` separator is inserted unless the head is
empty or already ends with a slash. -/
def pyJoin (d f : String) : String :=
  if strStartsWithSlash f then f
  else if d.data = [] || strEndsWithSlash d then String.mk (d.data ++ f.data)
  else String.mk (d.data ++ '/' :: f.data)

/-! ## Filesystem model

The filesystem visible to `safely_move_file` is an association list from path
to file contents (contents abstracted as `Nat`).  `os.path.exists` is key
membership and `os.rename` removes the source entry and adds the destination
entry with the source's contents, failing when the source does not exist. -/

def fsFind : List (String × Nat) → String → Option Nat
  | [], _ => none
  | (q, v) :: rest, p => if q = p then some v else fsFind rest p

/-- Embedding of `os.path.exists`. -/
def pyExists (fs : List (String × Nat)) (p : String) : Bool :=
  (fsFind fs p).isSome

/-- Embedding of `os.rename(src, dst)`: `none` models the `OSError` raised
when the source path does not exist. -/
def pyRename (fs : List (String × Nat)) (src dst : String) : Option (List (String × Nat)) :=
  match fsFind fs src with
  | none => none
  | some v => some ((fs.filter fun e => e.1 != src) ++ [(dst, v)])

inductive MoveResult where
  | moved (finalPath : String) (fs : List (String × Nat))
  | renameError
  | outOfFuel
deriving DecidableEq, Repr

/-- The `while os.path.exists(target_filepath)` loop of `safely_move_file`:
starting from the computed destination, append `-0`, `-1`, ... (built from the
SOURCE path's stem and extension, joined to the destination's directory) and
recheck until a free path is found.  The Python loop is unbounded; `fuel`
bounds the number of retries, and `fs.length + 1` retries always suffice
because the candidate names are pairwise distinct. -/
def findFree (fs : List (String × Nat)) (dir stem ext : String) :
    Nat → String → Nat → Option String
  | 0, t, _ => if pyExists fs t then none else some t
  | f + 1, t, c =>
    if pyExists fs t then
      findFree fs dir stem ext f (pyJoin dir (stem ++ "-" ++ natToDec c ++ ext)) (c + 1)
    else some t

/-- Embedding of `safely_move_file(fileinfo, target_filepath)`.  Directory
creation (`create_folder`) is modelled as always succeeding; `srcPath` is the
value of `fileinfo.filepath` at call time. -/
def safely_move_file (fuel : Nat) (fs : List (String × Nat)) (srcPath targetPath : String) :
    MoveResult :=
  let dir := pyDirname targetPath
  let se := pySplitext srcPath
  match findFree fs dir se.1 se.2 fuel targetPath 0 with
  | none => MoveResult.outOfFuel
  | some final =>
    match pyRename fs srcPath final with
    | none => MoveResult.renameError
    | some fs2 => MoveResult.moved final fs2

/-! ## Lemmas about the filesystem model and the rename loop -/

theorem fsFind_append (l₁ l₂ : List (String × Nat)) (p : String) :
    fsFind (l₁ ++ l₂) p =
      match fsFind l₁ p with
      | some v => some v
      | none => fsFind l₂ p := by
  induction l₁ with
  | nil => simp [fsFind]
  | cons e rest ih =>
    simp only [List.cons_append, fsFind]
    by_cases h : e.1 = p
    · simp [h]
    · simp [h, ih]

theorem fsFind_filter_ne (fs : List (String × Nat)) (src p : String) (h : p ≠ src) :
    fsFind (fs.filter fun e => e.1 != src) p = fsFind fs p := by
  induction fs with
  | nil => simp [fsFind]
  | cons e rest ih =>
    by_cases hq : e.1 = src
    · have hb : (e.1 != src) = false := by simp [hq]
      have hne : e.1 ≠ p := by rw [hq]; exact fun hh => h hh.symm
      simp [List.filter_cons, hb, fsFind, hne, ih]
    · have hb : (e.1 != src) = true := by simp [hq]
      by_cases hep : e.1 = p
      · simp [List.filter_cons, hb, fsFind, hep, h]
      · simp [List.filter_cons, hb, fsFind, hep, h, ih]

theorem fsFind_filter_of_none (fs : List (String × Nat)) (q : String × Nat → Bool) (p : String)
    (h : fsFind fs p = none) : fsFind (fs.filter q) p = none := by
  induction fs with
  | nil => simp [fsFind]
  | cons e rest ih =>
    simp only [fsFind] at h
    by_cases he : e.1 = p
    · rw [if_pos he] at h; exact absurd h (by simp)
    · rw [if_neg he] at h
      simp only [List.filter_cons]
      by_cases hq : q e = true
      · simp only [hq, if_pos trivial, fsFind, if_neg he]
        exact ih h
      · simp only [hq]
        simpa using ih h

theorem mem_of_pyExists (fs : List (String × Nat)) (p : String)
    (h : pyExists fs p = true) : p ∈ fs.map Prod.fst := by
  induction fs with
  | nil => simp [pyExists, fsFind] at h
  | cons e rest ih =>
    simp only [pyExists, fsFind] at h
    by_cases he : e.1 = p
    · simp [he]
    · rw [if_neg he] at h
      simp only [List.map_cons, List.mem_cons]
      exact Or.inr (ih h)

theorem findFree_some_not_exists (fs : List (String × Nat)) (dir stem ext : String) :
    ∀ (fuel : Nat) (t t2 : String) (c : Nat),
      findFree fs dir stem ext fuel t c = some t2 → pyExists fs t2 = false := by
  intro fuel
  induction fuel with
  | zero =>
    intro t t2 c h
    simp only [findFree] at h
    by_cases he : pyExists fs t = true
    · simp [he] at h
    · have : pyExists fs t = false := by simpa using he
      rw [this] at h
      simp at h
      rw [← h]; exact this
  | succ f ih =>
    intro t t2 c h
    simp only [findFree] at h
    by_cases he : pyExists fs t = true
    · rw [if_pos he] at h
      exact ih _ _ _ h
    · have hf : pyExists fs t = false := by simpa using he
      rw [hf] at h
      simp at h
      rw [← h]; exact hf

theorem findFree_none_exists_target (fs : List (String × Nat)) (dir stem ext : String)
    (fuel : Nat) (t : String) (c : Nat) (h : findFree fs dir stem ext fuel t c = none) :
    pyExists fs t = true := by
  by_contra he
  have hf : pyExists fs t = false := by simpa using he
  cases fuel with
  | zero => rw [findFree, hf] at h; simp at h
  | succ f => rw [findFree, hf] at h; simp at h

theorem findFree_none_all_exist (fs : List (String × Nat)) (dir stem ext : String) :
    ∀ (fuel : Nat) (t : String) (c : Nat),
      findFree fs dir stem ext fuel t c = none →
      ∀ k < fuel, pyExists fs (pyJoin dir (stem ++ "-" ++ natToDec (c + k) ++ ext)) = true := by
  intro fuel
  induction fuel with
  | zero => intro t c _ k hk; omega
  | succ f ih =>
    intro t c h k hk
    have ht := findFree_none_exists_target fs dir stem ext (f + 1) t c h
    rw [findFree, ht] at h
    simp only [if_pos trivial] at h
    rcases Nat.eq_zero_or_pos k with hk0 | hkpos
    · subst hk0
      simpa using findFree_none_exists_target fs dir stem ext f _ _ h
    · obtain ⟨j, rfl⟩ : ∃ j, k = j + 1 := ⟨k - 1, by omega⟩
      have hj := ih _ _ h j (by omega)
      have harith : c + 1 + j = c + (j + 1) := by omega
      rwa [harith] at hj

theorem candData (stem ext : String) (k : Nat) :
    (stem ++ "-" ++ natToDec k ++ ext).data =
      stem.data ++ '-' :: (natToDecChars k ++ ext.data) := by
  simp [String.data_append, natToDec]

theorem candSlash_const (stem ext : String) (k₁ k₂ : Nat) :
    strStartsWithSlash (stem ++ "-" ++ natToDec k₁ ++ ext) =
      strStartsWithSlash (stem ++ "-" ++ natToDec k₂ ++ ext) := by
  unfold strStartsWithSlash
  rw [candData, candData]
  cases stem.data <;> simp

theorem candTail_inj (stem ext : String) (k₁ k₂ : Nat)
    (h : (stem ++ "-" ++ natToDec k₁ ++ ext).data = (stem ++ "-" ++ natToDec k₂ ++ ext).data) :
    k₁ = k₂ := by
  rw [candData, candData] at h
  have h1 := List.append_cancel_left h
  have h2 : natToDecChars k₁ ++ ext.data = natToDecChars k₂ ++ ext.data := by
    injection h1
  exact natToDecChars_injective (List.append_cancel_right h2)

theorem cand_injective (dir stem ext : String) :
    Function.Injective (fun k => pyJoin dir (stem ++ "-" ++ natToDec k ++ ext)) := by
  intro k₁ k₂ h
  simp only [pyJoin] at h
  have hsl := candSlash_const stem ext k₁ k₂
  by_cases hs : strStartsWithSlash (stem ++ "-" ++ natToDec k₁ ++ ext) = true
  · rw [if_pos hs, if_pos (hsl ▸ hs)] at h
    exact candTail_inj stem ext k₁ k₂ (congrArg String.data h)
  · have hs1 : strStartsWithSlash (stem ++ "-" ++ natToDec k₁ ++ ext) = false := by simpa using hs
    have hs2 : strStartsWithSlash (stem ++ "-" ++ natToDec k₂ ++ ext) = false := hsl ▸ hs1
    rw [hs1, hs2] at h
    simp only [Bool.false_eq_true, if_neg (by exact fun hh => hh : ¬False)] at h
    by_cases hd : (dir.data = [] || strEndsWithSlash dir) = true
    · rw [if_pos hd, if_pos hd] at h
      have hdata := congrArg String.data h
      simp only [] at hdata
      exact candTail_inj stem ext k₁ k₂ (List.append_cancel_left hdata)
    · rw [if_neg hd, if_neg hd] at h
      have hdata := congrArg String.data h
      simp only [] at hdata
      have := List.append_cancel_left hdata
      have h2 : (stem ++ "-" ++ natToDec k₁ ++ ext).data = (stem ++ "-" ++ natToDec k₂ ++ ext).data := by
        injection this
      exact candTail_inj stem ext k₁ k₂ h2

theorem findFree_total (fs : List (String × Nat)) (dir stem ext tgt : String) :
    findFree fs dir stem ext (fs.length + 1) tgt 0 ≠ none := by
  intro h
  have hall := findFree_none_all_exist fs dir stem ext (fs.length + 1) tgt 0 h
  set cand := fun k => pyJoin dir (stem ++ "-" ++ natToDec k ++ ext) with hcand
  have hmem : ∀ k < fs.length + 1, cand k ∈ fs.map Prod.fst := by
    intro k hk
    apply mem_of_pyExists
    simpa using hall k hk
  have hnodup : ((List.range (fs.length + 1)).map cand).Nodup :=
    (List.nodup_range _).map (cand_injective dir stem ext)
  have hsub : ((List.range (fs.length + 1)).map cand).toFinset ⊆ (fs.map Prod.fst).toFinset := by
    intro x hx
    rw [List.mem_toFinset] at hx ⊢
    obtain ⟨k, hk, rfl⟩ := List.mem_map.mp hx
    exact hmem k (List.mem_range.mp hk)
  have hcard1 : ((List.range (fs.length + 1)).map cand).toFinset.card = fs.length + 1 := by
    rw [List.toFinset_card_of_nodup hnodup, List.length_map, List.length_range]
  have hcard2 : (fs.map Prod.fst).toFinset.card ≤ fs.length := by
    calc (fs.map Prod.fst).toFinset.card ≤ (fs.map Prod.fst).length := List.toFinset_card_le _
    _ = fs.length := List.length_map _ _
  have := Finset.card_le_card hsub
  omega

theorem findFree_stops (fs : List (String × Nat)) (dir stem ext : String) (F : Nat)
    (t : String) (c : Nat) (h : pyExists fs t = false) :
    findFree fs dir stem ext F t c = some t := by
  cases F <;> simp [findFree, h]

/-- C1: for every call to `safely_move_file` on any filesystem state whose
destination path is already occupied, the loop selects a different,
previously-nonexistent final path; the pre-existing file at the original
destination keeps its contents, the moved file's contents arrive unchanged at
the final path, and no other file changes — nothing is silently overwritten.
Fuel `fs.length + 1` always completes the unbounded Python `while` loop. -/
theorem safely_move_file_never_overwrites
    (fs : List (String × Nat)) (src tgt : String) (v : Nat)
    (hsrc : fsFind fs src = some v) (htgt : pyExists fs tgt = true) :
    ∃ final fs2,
      safely_move_file (fs.length + 1) fs src tgt = MoveResult.moved final fs2 ∧
      final ≠ tgt ∧
      pyExists fs final = false ∧
      fsFind fs2 final = some v ∧
      (∀ p : String, p ≠ src → p ≠ final → fsFind fs2 p = fsFind fs p) ∧
      (tgt ≠ src → fsFind fs2 tgt = fsFind fs tgt) := by
  obtain ⟨final, hf⟩ : ∃ t2, findFree fs (pyDirname tgt) (pySplitext src).1 (pySplitext src).2
      (fs.length + 1) tgt 0 = some t2 := by
    cases h : findFree fs (pyDirname tgt) (pySplitext src).1 (pySplitext src).2
        (fs.length + 1) tgt 0 with
    | none => exact absurd h (findFree_total fs _ _ _ tgt)
    | some t2 => exact ⟨t2, rfl⟩
  have hfree := findFree_some_not_exists fs _ _ _ _ _ _ _ hf
  have hne_tgt : final ≠ tgt := by
    intro he
    rw [he, htgt] at hfree
    simp at hfree
  have hnone : fsFind fs final = none := by
    unfold pyExists at hfree
    cases h : fsFind fs final with
    | none => rfl
    | some w => rw [h] at hfree; simp at hfree
  have hunch : ∀ p : String, p ≠ src → p ≠ final →
      fsFind ((fs.filter fun e => e.1 != src) ++ [(final, v)]) p = fsFind fs p := by
    intro p hps hpf
    rw [fsFind_append, fsFind_filter_ne fs src p hps]
    cases h : fsFind fs p with
    | some w => rfl
    | none =>
      have : ¬final = p := fun hh => hpf hh.symm
      simp [fsFind, this]
  refine ⟨final, (fs.filter fun e => e.1 != src) ++ [(final, v)], ?_, hne_tgt, hfree, ?_, hunch, ?_⟩
  · simp only [safely_move_file]
    rw [hf]
    simp [pyRename, hsrc]
  · rw [fsFind_append, fsFind_filter_of_none fs _ final hnone]
    simp [fsFind]
  · intro hts
    exact hunch tgt hts (Ne.symm hne_tgt)

/-- Witness for C1: moving `s.png` onto occupied `t.png` relocates it to a
fresh path and leaves `t.png` untouched. -/
theorem safely_move_file_never_overwrites_witness :
    fsFind [("t.png", 5), ("s.png", 7)] "s.png" = some 7 ∧
    pyExists [("t.png", 5), ("s.png", 7)] "t.png" = true ∧
    (∃ final fs2,
      safely_move_file 3 [("t.png", 5), ("s.png", 7)] "s.png" "t.png" =
        MoveResult.moved final fs2 ∧
      final ≠ "t.png" ∧
      pyExists [("t.png", 5), ("s.png", 7)] final = false ∧
      fsFind fs2 final = some 7 ∧
      (∀ p : String, p ≠ "s.png" → p ≠ final →
        fsFind fs2 p = fsFind [("t.png", 5), ("s.png", 7)] p) ∧
      ("t.png" ≠ "s.png" → fsFind fs2 "t.png" = fsFind [("t.png", 5), ("s.png", 7)] "t.png")) :=
  ⟨rfl, rfl, safely_move_file_never_overwrites [("t.png", 5), ("s.png", 7)] "s.png" "t.png" 7 rfl rfl⟩

/-- C9 counterexample: when `b.png` is moved onto the occupied destination
`a_v1.png`, the code builds the fallback name from the SOURCE stem (`b-0.png`),
not from the destination filename (`a_v1-0.png`), refuting the claim that the
disambiguator is inserted into the destination's filename. -/
theorem rename_counter_uses_source_name :
    safely_move_file 3 [("b.png", 1), ("a_v1.png", 2)] "b.png" "a_v1.png" =
      MoveResult.moved "b-0.png" [("a_v1.png", 2), ("b-0.png", 1)] ∧
    "b-0.png" ≠ "a_v1-0.png" := by
  refine ⟨rfl, by decide⟩

theorem findFree_first_free (fs : List (String × Nat)) (dir stem ext : String) :
    ∀ (fuel : Nat) (t t2 : String) (c : Nat),
      pyExists fs t = true →
      findFree fs dir stem ext fuel t c = some t2 →
      ∃ k, c ≤ k ∧ t2 = pyJoin dir (stem ++ "-" ++ natToDec k ++ ext) ∧
        pyExists fs (pyJoin dir (stem ++ "-" ++ natToDec k ++ ext)) = false ∧
        ∀ j, c ≤ j → j < k →
          pyExists fs (pyJoin dir (stem ++ "-" ++ natToDec j ++ ext)) = true := by
  intro fuel
  induction fuel with
  | zero =>
    intro t t2 c ht h
    rw [findFree, ht] at h
    simp at h
  | succ f ih =>
    intro t t2 c ht h
    rw [findFree, ht, if_pos rfl] at h
    by_cases hc : pyExists fs (pyJoin dir (stem ++ "-" ++ natToDec c ++ ext)) = true
    · obtain ⟨k, hk1, hk2, hk3, hk4⟩ := ih _ t2 (c + 1) hc h
      refine ⟨k, by omega, hk2, hk3, ?_⟩
      intro j hj1 hj2
      rcases Nat.eq_or_lt_of_le hj1 with rfl | hlt
      · exact hc
      · exact hk4 j (by omega) hj2
    · have hcf : pyExists fs (pyJoin dir (stem ++ "-" ++ natToDec c ++ ext)) = false := by
        simpa using hc
      rw [findFree_stops fs dir stem ext f _ _ hcf] at h
      exact ⟨c, le_refl c, (Option.some_inj.mp h).symm, hcf, fun j hj1 hj2 => by omega⟩

/-- C9 amended: for every move whose destination is already occupied, the
collision-avoidance loop builds its candidates by appending the numeric
disambiguator to the SOURCE path's stem before the SOURCE's extension —
`srcStem-0`, `srcStem-1`, ... (`natToDec k` renders `k` in decimal) — joined
to the destination's directory, rechecking existence and incrementing until a
free path is found: the move lands at the candidate for the least free `k`,
every earlier candidate being occupied.  When source and destination share
their filename, as in the quarantine-master example `img.png` →
`[Dupes]/img.png`, the candidates coincide with inserting the disambiguator
into the destination's filename, giving `[Dupes]/img-0.png`, and on a further
collision `[Dupes]/img-1.png`, and so on. -/
theorem safely_move_file_collision_source_stem
    (fs : List (String × Nat)) (src tgt : String) (v : Nat)
    (hsrc : fsFind fs src = some v) (htgt : pyExists fs tgt = true) :
    ∃ k : Nat,
      (∀ j < k, pyExists fs
        (pyJoin (pyDirname tgt)
          ((pySplitext src).1 ++ "-" ++ natToDec j ++ (pySplitext src).2)) = true) ∧
      pyExists fs
        (pyJoin (pyDirname tgt)
          ((pySplitext src).1 ++ "-" ++ natToDec k ++ (pySplitext src).2)) = false ∧
      safely_move_file (fs.length + 1) fs src tgt =
        MoveResult.moved
          (pyJoin (pyDirname tgt)
            ((pySplitext src).1 ++ "-" ++ natToDec k ++ (pySplitext src).2))
          ((fs.filter fun e => e.1 != src) ++
            [(pyJoin (pyDirname tgt)
              ((pySplitext src).1 ++ "-" ++ natToDec k ++ (pySplitext src).2), v)]) := by
  obtain ⟨final, hf⟩ : ∃ t2, findFree fs (pyDirname tgt) (pySplitext src).1 (pySplitext src).2
      (fs.length + 1) tgt 0 = some t2 := by
    cases h : findFree fs (pyDirname tgt) (pySplitext src).1 (pySplitext src).2
        (fs.length + 1) tgt 0 with
    | none => exact absurd h (findFree_total fs _ _ _ tgt)
    | some t2 => exact ⟨t2, rfl⟩
  obtain ⟨k, _, hk2, hk3, hk4⟩ :=
    findFree_first_free fs (pyDirname tgt) (pySplitext src).1 (pySplitext src).2
      (fs.length + 1) tgt final 0 htgt hf
  subst hk2
  refine ⟨k, fun j hj => hk4 j (Nat.zero_le j) hj, hk3, ?_⟩
  simp only [safely_move_file]
  rw [hf]
  simp [pyRename, hsrc]

/-- Witness for the amended C9: quarantining master `img.png` to the occupied
`[Dupes]/img.png` when `[Dupes]/img-0.png` is ALSO occupied skips the `-0`
candidate and lands at `[Dupes]/img-1.png` — the incrementing search of the
spec's example, one collision further. -/
theorem safely_move_file_collision_source_stem_witness :
    fsFind [("img.png", 9), ("[Dupes]/img.png", 3), ("[Dupes]/img-0.png", 4)] "img.png" =
      some 9 ∧
    pyExists [("img.png", 9), ("[Dupes]/img.png", 3), ("[Dupes]/img-0.png", 4)]
      "[Dupes]/img.png" = true ∧
    (∃ k : Nat,
      (∀ j < k, pyExists [("img.png", 9), ("[Dupes]/img.png", 3), ("[Dupes]/img-0.png", 4)]
        (pyJoin (pyDirname "[Dupes]/img.png")
          ((pySplitext "img.png").1 ++ "-" ++ natToDec j ++ (pySplitext "img.png").2)) = true) ∧
      pyExists [("img.png", 9), ("[Dupes]/img.png", 3), ("[Dupes]/img-0.png", 4)]
        (pyJoin (pyDirname "[Dupes]/img.png")
          ((pySplitext "img.png").1 ++ "-" ++ natToDec k ++ (pySplitext "img.png").2)) = false ∧
      safely_move_file 4 [("img.png", 9), ("[Dupes]/img.png", 3), ("[Dupes]/img-0.png", 4)]
          "img.png" "[Dupes]/img.png" =
        MoveResult.moved
          (pyJoin (pyDirname "[Dupes]/img.png")
            ((pySplitext "img.png").1 ++ "-" ++ natToDec k ++ (pySplitext "img.png").2))
          (([("img.png", 9), ("[Dupes]/img.png", 3), ("[Dupes]/img-0.png", 4)].filter
              fun e => e.1 != "img.png") ++
            [(pyJoin (pyDirname "[Dupes]/img.png")
              ((pySplitext "img.png").1 ++ "-" ++ natToDec k ++ (pySplitext "img.png").2), 9)])) ∧
    safely_move_file 4 [("img.png", 9), ("[Dupes]/img.png", 3), ("[Dupes]/img-0.png", 4)]
        "img.png" "[Dupes]/img.png" =
      MoveResult.moved "[Dupes]/img-1.png"
        [("[Dupes]/img.png", 3), ("[Dupes]/img-0.png", 4), ("[Dupes]/img-1.png", 9)] := by
  refine ⟨rfl, rfl, ?_, rfl⟩
  exact safely_move_file_collision_source_stem
    [("img.png", 9), ("[Dupes]/img.png", 3), ("[Dupes]/img-0.png", 4)]
    "img.png" "[Dupes]/img.png" 9 rfl rfl

/-! ## Similarity grouping (image-content mode)

Embedding of the `__main__` similarity-grouping phase: the double loop over
`fileinfos` that inserts an edge between every pair of records whose
perceptual-hash Hamming distance is below `SIMILARITY_THRESH` (the parsed
`--threshold` CLI value is never consulted there), followed by `amalgamate`,
which collapses the adjacency dict into connected components by
depth-first search. -/

/-- Adjacency built by the scan: a `defaultdict(list)` keyed by record,
modelled as an association list in insertion order. -/
def Adjacency : Type := List (FileRecord × List FileRecord)

/-- Append `x` to the list stored under key `k` (`defaultdict(list)`
semantics: a missing key starts an empty list at the end of the dict). -/
def dictAppend (d : List (FileRecord × List FileRecord)) (k x : FileRecord) :
    List (FileRecord × List FileRecord) :=
  match d with
  | [] => [(k, [x])]
  | (k2, xs) :: rest =>
    if k2 = k then (k2, xs ++ [x]) :: rest else (k2, xs) :: dictAppend rest k x

/-- The inner loop `for file_b in fileinfos[i+1:]`: skip records with no
hash; add both directed entries when `hamming(...) < SIMILARITY_THRESH`. -/
def innerPairLoop (a : FileRecord) : List FileRecord →
    List (FileRecord × List FileRecord) → List (FileRecord × List FileRecord)
  | [], d => d
  | b :: rest, d =>
    innerPairLoop a rest
      (match a.phash, b.phash with
       | some pa, some pb =>
         if hamming pa pb < SIMILARITY_THRESH then dictAppend (dictAppend d a b) b a else d
       | _, _ => d)

/-- The outer loop `for i, file_a in enumerate(fileinfos)`: a record with no
hash is skipped (`continue`) before the inner loop runs. -/
def outerPairLoop : List FileRecord →
    List (FileRecord × List FileRecord) → List (FileRecord × List FileRecord)
  | [], d => d
  | a :: rest, d =>
    outerPairLoop rest (if a.phash.isNone then d else innerPairLoop a rest d)

def buildAdjacency (fileinfos : List FileRecord) : List (FileRecord × List FileRecord) :=
  outerPairLoop fileinfos []

/-- Dict lookup `amalgams[current]`; `none` models the `KeyError` that the
DFS catches and ignores. -/
def assocFind (d : List (FileRecord × List FileRecord)) (k : FileRecord) :
    Option (List FileRecord) :=
  match d with
  | [] => none
  | (k2, v) :: rest => if k2 = k then some v else assocFind rest k

/-- The recursive `dfs(visited, component, current)` of `amalgamate`,
processing a worklist of neighbours: an unvisited neighbour is marked
visited, appended to the component, and its own neighbours are traversed
before the remaining siblings.  Python's recursion is unbounded; `fuel`
bounds the recursion depth (every frame either visits a new node or consumes
a neighbour entry, so any fuel beyond the total adjacency size is enough). -/
def dfsList (adj : List (FileRecord × List FileRecord)) :
    Nat → List String → List FileRecord → List FileRecord → List String × List FileRecord
  | 0, v, comp, _ => (v, comp)
  | _ + 1, v, comp, [] => (v, comp)
  | f + 1, v, comp, c :: rest =>
    if c.filepath ∈ v then dfsList adj f v comp rest
    else
      let ns := (assocFind adj c).getD []
      let r := dfsList adj f (c.filepath :: v) (comp ++ [c]) ns
      dfsList adj f r.1 r.2 rest

/-- Total size of the adjacency structure, used as the DFS fuel bound. -/
def adjSize (adj : List (FileRecord × List FileRecord)) : Nat :=
  adj.foldl (fun n p => n + 1 + p.2.length) 0

/-- Embedding of `amalgamate`: iterate over the dict keys in insertion order;
each unvisited key is marked visited and seeds `dfs(visited, [i], i)`, and the
resulting component is recorded under that key. -/
def amalGo (adj : List (FileRecord × List FileRecord)) :
    List (FileRecord × List FileRecord) → List String →
    List (FileRecord × List FileRecord) → List (FileRecord × List FileRecord)
  | [], _, acc => acc
  | (k, _) :: rest, v, acc =>
    if k.filepath ∈ v then amalGo adj rest v acc
    else
      let r := dfsList adj (adjSize adj + 1) (k.filepath :: v) [k] ((assocFind adj k).getD [])
      amalGo adj rest r.1 (acc ++ [(k, r.2)])

def amalgamate (adj : List (FileRecord × List FileRecord)) :
    List (FileRecord × List FileRecord) :=
  amalGo adj adj [] []

/-- The duplicate groups of image-content mode: build the similarity
adjacency, collapse it with `amalgamate`, and take the dict values
(`keyed_file_list.values()`). -/
def buildGroups (fileinfos : List FileRecord) : List (List FileRecord) :=
  (amalgamate (buildAdjacency fileinfos)).map (fun p => p.2)

/-- C3: grouping is by connected components of the similarity graph.  For any
three files `A`, `B`, `C` with non-null hashes where `hamming(A,B)` and
`hamming(B,C)` are below the threshold but `hamming(A,C)` is not, all three
files end up together in exactly one duplicate group. -/
theorem transitive_grouping
    (pa pb pc : Nat) (a b c : String)
    (wa ha2 wb hb2 wc hc2 : Option Nat) (ca cb cc : Option String)
    (hab : a ≠ b) (hac : a ≠ c) (hbc : b ≠ c)
    (hAB : hamming pa pb < SIMILARITY_THRESH)
    (hBC : hamming pb pc < SIMILARITY_THRESH)
    (hAC : ¬ hamming pa pc < SIMILARITY_THRESH) :
    buildGroups [⟨a, some pa, wa, ha2, ca⟩, ⟨b, some pb, wb, hb2, cb⟩, ⟨c, some pc, wc, hc2, cc⟩] =
      [[⟨a, some pa, wa, ha2, ca⟩, ⟨b, some pb, wb, hb2, cb⟩, ⟨c, some pc, wc, hc2, cc⟩]] := by
  have hadj : buildAdjacency
      [⟨a, some pa, wa, ha2, ca⟩, ⟨b, some pb, wb, hb2, cb⟩, ⟨c, some pc, wc, hc2, cc⟩] =
      [(⟨a, some pa, wa, ha2, ca⟩, [⟨b, some pb, wb, hb2, cb⟩]),
       (⟨b, some pb, wb, hb2, cb⟩, [⟨a, some pa, wa, ha2, ca⟩, ⟨c, some pc, wc, hc2, cc⟩]),
       (⟨c, some pc, wc, hc2, cc⟩, [⟨b, some pb, wb, hb2, cb⟩])] := by
    simp [buildAdjacency, outerPairLoop, innerPairLoop, dictAppend,
      FileRecord.mk.injEq, hab, hac, hbc, hAB, hBC, hAC]
  unfold buildGroups
  rw [hadj]
  simp [amalgamate, amalGo, adjSize, dfsList, assocFind, FileRecord.mk.injEq,
    hab, hac, hbc, Ne.symm hab, Ne.symm hac, Ne.symm hbc]

/-- Witness for C3: hashes `0`, `15`, `1023` give distances 4, 6 (below the
threshold 8) and 10 (not below), and the three files land in one group. -/
theorem transitive_grouping_witness :
    hamming 0 15 < SIMILARITY_THRESH ∧ hamming 15 1023 < SIMILARITY_THRESH ∧
    ¬ hamming 0 1023 < SIMILARITY_THRESH ∧
    buildGroups [⟨"a.png", some 0, none, none, none⟩, ⟨"b.png", some 15, none, none, none⟩,
        ⟨"c.png", some 1023, none, none, none⟩] =
      [[⟨"a.png", some 0, none, none, none⟩, ⟨"b.png", some 15, none, none, none⟩,
        ⟨"c.png", some 1023, none, none, none⟩]] := by
  refine ⟨by decide, by decide, by decide, ?_⟩
  exact transitive_grouping 0 15 1023 "a.png" "b.png" "c.png"
    none none none none none none none none none
    (by decide) (by decide) (by decide) (by decide) (by decide) (by decide)

/-! ## Master selection (image-content mode)

Embedding of `similar.sort(key = lambda f: f.height * f.width, reverse = True)`:
Python's `list.sort` is stable, and `reverse=True` inverts the key comparison
without disturbing the relative order of equal keys.  We model it as a stable
insertion sort that places each incoming element after every already-placed
element whose key is at least as large. -/

/-- The sort key `f.height * f.width`.  In Python a member with `None`
dimensions would raise `TypeError`; group members in image-content mode always
have both dimensions set (their hash is non-null, so the image decoded), and
the theorems below restrict to that case. -/
def pyArea (f : FileRecord) : Nat := f.height.getD 0 * f.width.getD 0

def sortInsert {α : Type} (key : α → Nat) (x : α) : List α → List α
  | [] => [x]
  | y :: ys => if key x ≤ key y then y :: sortInsert key x ys else x :: y :: ys

/-- Stable descending sort by `key`, processing the list left to right. -/
def pyStableSortDesc {α : Type} (key : α → Nat) (l : List α) : List α :=
  l.foldl (fun acc x => sortInsert key x acc) []

theorem sortInsert_perm {α : Type} (key : α → Nat) (x : α) (l : List α) :
    (sortInsert key x l).Perm (x :: l) := by
  induction l with
  | nil => simp [sortInsert]
  | cons y ys ih =>
    by_cases h : key x ≤ key y
    · rw [sortInsert, if_pos h]
      exact (ih.cons y).trans (List.Perm.swap x y ys)
    · rw [sortInsert, if_neg h]

theorem mem_sortInsert {α : Type} (key : α → Nat) (x z : α) (l : List α) :
    z ∈ sortInsert key x l ↔ z = x ∨ z ∈ l := by
  rw [(sortInsert_perm key x l).mem_iff, List.mem_cons]

theorem foldl_sortInsert_perm {α : Type} (key : α → Nat) (l acc : List α) :
    (l.foldl (fun acc x => sortInsert key x acc) acc).Perm (acc ++ l) := by
  induction l generalizing acc with
  | nil => simp
  | cons x xs ih =>
    simp only [List.foldl_cons]
    exact ((ih (sortInsert key x acc)).trans
      ((sortInsert_perm key x acc).append_right xs)).trans List.perm_middle.symm

theorem pyStableSortDesc_perm {α : Type} (key : α → Nat) (l : List α) :
    (pyStableSortDesc key l).Perm l := by
  simpa using foldl_sortInsert_perm key l []

theorem sortInsert_pairwise {α : Type} (key : α → Nat) (x : α) (l : List α)
    (h : l.Pairwise (fun u v => key v ≤ key u)) :
    (sortInsert key x l).Pairwise (fun u v => key v ≤ key u) := by
  induction l with
  | nil => simp [sortInsert]
  | cons y ys ih =>
    rcases List.pairwise_cons.mp h with ⟨hy, hys⟩
    by_cases hk : key x ≤ key y
    · simp only [sortInsert, if_pos hk]
      refine List.pairwise_cons.mpr ⟨?_, ih hys⟩
      intro z hz
      rcases (mem_sortInsert key x z ys).mp hz with rfl | hzys
      · exact hk
      · exact hy z hzys
    · simp only [sortInsert, if_neg hk]
      refine List.pairwise_cons.mpr ⟨?_, h⟩
      intro z hz
      rcases List.mem_cons.mp hz with rfl | hzys
      · omega
      · exact le_trans (hy z hzys) (by omega)

theorem pyStableSortDesc_pairwise {α : Type} (key : α → Nat) (l : List α) :
    (pyStableSortDesc key l).Pairwise (fun u v => key v ≤ key u) := by
  suffices h : ∀ acc : List α, acc.Pairwise (fun u v => key v ≤ key u) →
      (l.foldl (fun acc x => sortInsert key x acc) acc).Pairwise (fun u v => key v ≤ key u) by
    exact h [] (by simp)
  induction l with
  | nil => intro acc hacc; simpa using hacc
  | cons x xs ih =>
    intro acc hacc
    exact ih (sortInsert key x acc) (sortInsert_pairwise key x acc hacc)

/-- The strict priority order realised by a stable descending sort on an
index-annotated list: strictly larger key first, ties by original position. -/
def lexRel {α : Type} (key : α → Nat) (u v : Nat × α) : Prop :=
  key v.2 < key u.2 ∨ (key u.2 = key v.2 ∧ u.1 < v.1)

theorem sortInsert_pairwise_lex {α : Type} (key : α → Nat) (x : Nat × α) (l : List (Nat × α))
    (h : l.Pairwise (lexRel key)) (hidx : ∀ y ∈ l, y.1 < x.1) :
    (sortInsert (fun p => key p.2) x l).Pairwise (lexRel key) := by
  induction l with
  | nil => simp [sortInsert]
  | cons y ys ih =>
    rcases List.pairwise_cons.mp h with ⟨hy, hys⟩
    by_cases hk : key x.2 ≤ key y.2
    · simp only [sortInsert, if_pos hk]
      refine List.pairwise_cons.mpr ⟨?_, ih hys (fun z hz => hidx z (List.mem_cons_of_mem y hz))⟩
      intro z hz
      rcases (mem_sortInsert (fun p => key p.2) x z ys).mp hz with rfl | hzys
      · rcases Nat.lt_or_ge (key z.2) (key y.2) with hlt | hge
        · exact Or.inl hlt
        · exact Or.inr ⟨by omega, hidx y (List.mem_cons_self y ys)⟩
      · exact hy z hzys
    · simp only [sortInsert, if_neg hk]
      refine List.pairwise_cons.mpr ⟨?_, h⟩
      intro z hz
      rcases List.mem_cons.mp hz with rfl | hzys
      · exact Or.inl (by omega)
      · rcases hy z hzys with hlt | ⟨heq, _⟩
        · exact Or.inl (by omega)
        · exact Or.inl (by omega)

theorem foldl_sortInsert_lex {α : Type} (key : α → Nat) :
    ∀ (l acc : List (Nat × α)), l.Pairwise (fun u v => u.1 < v.1) →
      acc.Pairwise (lexRel key) → (∀ y ∈ acc, ∀ z ∈ l, y.1 < z.1) →
      (l.foldl (fun acc x => sortInsert (fun p => key p.2) x acc) acc).Pairwise (lexRel key) := by
  intro l
  induction l with
  | nil => intro acc _ hacc _; simpa using hacc
  | cons x xs ih =>
    intro acc hl hacc hsep
    rcases List.pairwise_cons.mp hl with ⟨hx, hxs⟩
    simp only [List.foldl_cons]
    refine ih (sortInsert (fun p => key p.2) x acc) hxs
      (sortInsert_pairwise_lex key x acc hacc
        (fun y hy => hsep y hy x (List.mem_cons_self x xs))) ?_
    intro y hy z hz
    rcases (mem_sortInsert (fun p => key p.2) x y acc).mp hy with rfl | hyacc
    · exact hx z hz
    · exact hsep y hyacc z (List.mem_cons_of_mem x hz)

theorem pyStableSortDesc_pairwise_lex {α : Type} (key : α → Nat) (l : List (Nat × α))
    (h : l.Pairwise (fun u v => u.1 < v.1)) :
    (pyStableSortDesc (fun p => key p.2) l).Pairwise (lexRel key) :=
  foldl_sortInsert_lex key l [] h (by simp) (by simp)

theorem map_snd_sortInsert {α : Type} (key : α → Nat) (x : Nat × α) (l : List (Nat × α)) :
    (sortInsert (fun p => key p.2) x l).map Prod.snd = sortInsert key x.2 (l.map Prod.snd) := by
  induction l with
  | nil => simp [sortInsert]
  | cons y ys ih =>
    by_cases hk : key x.2 ≤ key y.2
    · simp [sortInsert, if_pos hk, ih]
    · simp [sortInsert, if_neg hk]

theorem map_snd_pyStableSortDesc {α : Type} (key : α → Nat) (l : List (Nat × α)) :
    (pyStableSortDesc (fun p => key p.2) l).map Prod.snd = pyStableSortDesc key (l.map Prod.snd) := by
  suffices hgen : ∀ acc : List (Nat × α),
      (l.foldl (fun acc x => sortInsert (fun p => key p.2) x acc) acc).map Prod.snd =
        (l.map Prod.snd).foldl (fun acc x => sortInsert key x acc) (acc.map Prod.snd) by
    simpa [pyStableSortDesc] using hgen []
  induction l with
  | nil => intro acc; simp
  | cons x xs ih =>
    intro acc
    simp only [List.foldl_cons, List.map_cons]
    rw [ih (sortInsert (fun p => key p.2) x acc), map_snd_sortInsert]

theorem mem_enumFrom_le {α : Type} (l : List α) :
    ∀ (n : Nat) (p : Nat × α), p ∈ List.enumFrom n l → n ≤ p.1 := by
  induction l with
  | nil => intro n p h; simp [List.enumFrom] at h
  | cons x xs ih =>
    intro n p h
    rcases List.mem_cons.mp h with rfl | htail
    · exact le_refl n
    · exact le_trans (Nat.le_succ n) (ih (n + 1) p htail)

theorem enumFrom_pairwise_fst_lt {α : Type} (l : List α) :
    ∀ n : Nat, (List.enumFrom n l).Pairwise (fun u v => u.1 < v.1) := by
  induction l with
  | nil => intro n; simp [List.enumFrom]
  | cons x xs ih =>
    intro n
    refine List.pairwise_cons.mpr ⟨?_, ih (n + 1)⟩
    intro p hp
    exact lt_of_lt_of_le (Nat.lt_succ_self n) (mem_enumFrom_le xs (n + 1) p hp)

theorem enum_pairwise_fst_lt {α : Type} (l : List α) :
    (l.enum).Pairwise (fun u v => u.1 < v.1) :=
  enumFrom_pairwise_fst_lt l 0

/-- C4: within an image-content group, `similar.sort(key=..., reverse=True)`
orders the members by pixel area descending; ties keep scan-discovery order
(the lexicographic pairwise property on the index-annotated list); and the
member at index 0 has the largest pixel area, regardless of the original
order of the group's members. -/
theorem master_selection_sort
    (similar : List FileRecord)
    (hdims : ∀ f ∈ similar, f.width.isSome ∧ f.height.isSome) :
    (pyStableSortDesc pyArea similar).Perm similar ∧
    (pyStableSortDesc pyArea similar).Pairwise (fun u v => pyArea v ≤ pyArea u) ∧
    (∀ f ∈ similar, ∀ hd, (pyStableSortDesc pyArea similar).head? = some hd →
      pyArea f ≤ pyArea hd) ∧
    (pyStableSortDesc (fun p => pyArea p.2) similar.enum).map Prod.snd =
      pyStableSortDesc pyArea similar ∧
    (pyStableSortDesc (fun p => pyArea p.2) similar.enum).Pairwise (lexRel pyArea) := by
  refine ⟨pyStableSortDesc_perm _ _, pyStableSortDesc_pairwise _ _, ?_, ?_,
    pyStableSortDesc_pairwise_lex _ _ (enum_pairwise_fst_lt similar)⟩
  · intro f hf hd hhd
    have hmem : f ∈ pyStableSortDesc pyArea similar :=
      (pyStableSortDesc_perm pyArea similar).mem_iff.mpr hf
    have hp := pyStableSortDesc_pairwise pyArea similar
    cases hs : pyStableSortDesc pyArea similar with
    | nil => rw [hs] at hhd; simp at hhd
    | cons h0 tl =>
      rw [hs] at hhd hmem hp
      have hhd0 : h0 = hd := by simpa using hhd
      subst hhd0
      rcases List.pairwise_cons.mp hp with ⟨hall, _⟩
      rcases List.mem_cons.mp hmem with rfl | htl
      · exact le_refl _
      · exact hall f htl
  · have hmap := map_snd_pyStableSortDesc pyArea similar.enum
    rwa [List.enum_map_snd] at hmap

/-- Witness for C4: a group with pixel areas 4000, 9000, 1000 (in that scan
order) sorts with the 9000-area member at index 0, the spec's own example. -/
theorem master_selection_sort_witness :
    (∀ f ∈ [(⟨"p1.png", some 1, some 80, some 50, some "c1"⟩ : FileRecord),
            ⟨"p2.png", some 2, some 90, some 100, some "c2"⟩,
            ⟨"p3.png", some 3, some 50, some 20, some "c3"⟩],
        f.width.isSome ∧ f.height.isSome) ∧
    (pyStableSortDesc pyArea
      [⟨"p1.png", some 1, some 80, some 50, some "c1"⟩,
       ⟨"p2.png", some 2, some 90, some 100, some "c2"⟩,
       ⟨"p3.png", some 3, some 50, some 20, some "c3"⟩]).head? =
      some ⟨"p2.png", some 2, some 90, some 100, some "c2"⟩ ∧
    ((pyStableSortDesc pyArea
      [⟨"p1.png", some 1, some 80, some 50, some "c1"⟩,
       ⟨"p2.png", some 2, some 90, some 100, some "c2"⟩,
       ⟨"p3.png", some 3, some 50, some 20, some "c3"⟩]).Perm
      [⟨"p1.png", some 1, some 80, some 50, some "c1"⟩,
       ⟨"p2.png", some 2, some 90, some 100, some "c2"⟩,
       ⟨"p3.png", some 3, some 50, some 20, some "c3"⟩] ∧
     (pyStableSortDesc pyArea
      [⟨"p1.png", some 1, some 80, some 50, some "c1"⟩,
       ⟨"p2.png", some 2, some 90, some 100, some "c2"⟩,
       ⟨"p3.png", some 3, some 50, some 20, some "c3"⟩]).Pairwise
        (fun u v => pyArea v ≤ pyArea u) ∧
     (∀ f ∈ [(⟨"p1.png", some 1, some 80, some 50, some "c1"⟩ : FileRecord),
             ⟨"p2.png", some 2, some 90, some 100, some "c2"⟩,
             ⟨"p3.png", some 3, some 50, some 20, some "c3"⟩],
        ∀ hd, (pyStableSortDesc pyArea
          [⟨"p1.png", some 1, some 80, some 50, some "c1"⟩,
           ⟨"p2.png", some 2, some 90, some 100, some "c2"⟩,
           ⟨"p3.png", some 3, some 50, some 20, some "c3"⟩]).head? = some hd →
        pyArea f ≤ pyArea hd)) := by
  refine ⟨by decide, by rfl, ?_⟩
  have h := master_selection_sort
    [⟨"p1.png", some 1, some 80, some 50, some "c1"⟩,
     ⟨"p2.png", some 2, some 90, some 100, some "c2"⟩,
     ⟨"p3.png", some 3, some 50, some 20, some "c3"⟩] (by decide)
  exact ⟨h.1, h.2.1, h.2.2.1⟩

/-! ## Scan loop: cache lookup or recomputation

Embedding of the per-file block of the `__main__` scan loop:

    try:
        if cache[filepath].mtime == int(os.path.getmtime(filepath)):
            for var in ('phash', 'width', 'height', 'crc32'):
                setattr(fileinfo, var, cache[filepath][var])
        else:
            fileinfo.compute_phash(); fileinfo.compute_crc32()
    except KeyError:
        fileinfo.compute_phash(); fileinfo.compute_crc32()

File bytes are abstracted as a type `γ`; `computeP` models `compute_phash`
(returning hash, original width and original height together on success, and
`none` for non-images and undecodable data), `computeC` models
`compute_crc32`. -/

/-- Python dict lookup `cache[filepath]`; `none` models the `KeyError`. -/
def cacheFind : List (String × CacheEntry) → String → Option CacheEntry
  | [], _ => none
  | (k, e) :: rest, p => if k = p then some e else cacheFind rest p

/-- The recomputation branch: `compute_phash()` sets `phash`, `width`,
`height` together when the image decodes (and leaves them untouched
otherwise); `compute_crc32()` then sets `crc32`. -/
def freshAttrs {γ : Type} (computeP : γ → Option (Nat × Nat × Nat)) (computeC : γ → String)
    (f : FileRecord) (content : γ) : FileRecord :=
  let f1 :=
    match computeP content with
    | some r => { f with phash := some r.1, width := some r.2.1, height := some r.2.2 }
    | none => f
  { f1 with crc32 := some (computeC content) }

/-- One scan-loop step for one file: construct `FileInfo(filepath)`, then
either copy the four cached attributes (exact mtime match) or recompute. -/
def scanRecord {γ : Type} (computeP : γ → Option (Nat × Nat × Nat)) (computeC : γ → String)
    (cache : List (String × CacheEntry)) (filepath : String) (content : γ)
    (curMtime : Nat) : FileRecord :=
  let f0 : FileRecord := ⟨filepath, none, none, none, none⟩
  match cacheFind cache filepath with
  | some e =>
    if e.mtime = curMtime then
      { f0 with phash := e.phash, width := e.width, height := e.height, crc32 := some e.crc32 }
    else freshAttrs computeP computeC f0 content
  | none => freshAttrs computeP computeC f0 content

/-- C2: a cache entry is used exactly when its stored mtime equals the file's
current mtime, in which case all four attributes are copied from the cache
with no recomputation; when the mtimes differ or the path has no entry, all
four attributes are recomputed afresh from the file's bytes (the last
conjunct spells out that the fresh record's four attributes come only from
`computeP`/`computeC` applied to the content). -/
theorem scan_cache_hit_or_recompute
    {γ : Type} (computeP : γ → Option (Nat × Nat × Nat)) (computeC : γ → String)
    (cache : List (String × CacheEntry)) (filepath : String) (content : γ)
    (curMtime : Nat) :
    (∀ e, cacheFind cache filepath = some e → e.mtime = curMtime →
      scanRecord computeP computeC cache filepath content curMtime =
        ⟨filepath, e.phash, e.width, e.height, some e.crc32⟩) ∧
    (∀ e, cacheFind cache filepath = some e → e.mtime ≠ curMtime →
      scanRecord computeP computeC cache filepath content curMtime =
        freshAttrs computeP computeC ⟨filepath, none, none, none, none⟩ content) ∧
    (cacheFind cache filepath = none →
      scanRecord computeP computeC cache filepath content curMtime =
        freshAttrs computeP computeC ⟨filepath, none, none, none, none⟩ content) ∧
    freshAttrs computeP computeC ⟨filepath, none, none, none, none⟩ content =
      ⟨filepath, (computeP content).map (fun r => r.1),
        (computeP content).map (fun r => r.2.1), (computeP content).map (fun r => r.2.2),
        some (computeC content)⟩ := by
  refine ⟨?_, ?_, ?_, ?_⟩
  · intro e he hm
    simp [scanRecord, he, hm]
  · intro e he hm
    simp [scanRecord, he, hm]
  · intro hnone
    simp [scanRecord, hnone]
  · cases hp : computeP content <;> simp [freshAttrs, hp]

/-- Witness for C2, following the spec's scenarios 3 and 4: the entry
`photo.jpg / mtime 1690000000` is reused verbatim when the live mtime
matches, fully recomputed when the live mtime is 1690000500, and an unknown
path is computed fresh. -/
theorem scan_cache_hit_or_recompute_witness :
    cacheFind [("photo.jpg", ⟨1690000000, some 1234, some 1920, some 1080, "ab12cd34"⟩)]
      "photo.jpg" = some ⟨1690000000, some 1234, some 1920, some 1080, "ab12cd34"⟩ ∧
    scanRecord (fun _ : Unit => some (5, 30, 20)) (fun _ => "deadbeef")
      [("photo.jpg", ⟨1690000000, some 1234, some 1920, some 1080, "ab12cd34"⟩)]
      "photo.jpg" () 1690000000 =
      ⟨"photo.jpg", some 1234, some 1920, some 1080, some "ab12cd34"⟩ ∧
    scanRecord (fun _ : Unit => some (5, 30, 20)) (fun _ => "deadbeef")
      [("photo.jpg", ⟨1690000000, some 1234, some 1920, some 1080, "ab12cd34"⟩)]
      "photo.jpg" () 1690000500 =
      freshAttrs (fun _ : Unit => some (5, 30, 20)) (fun _ => "deadbeef")
        ⟨"photo.jpg", none, none, none, none⟩ () ∧
    scanRecord (fun _ : Unit => some (5, 30, 20)) (fun _ => "deadbeef")
      [("photo.jpg", ⟨1690000000, some 1234, some 1920, some 1080, "ab12cd34"⟩)]
      "new.png" () 1690000000 =
      freshAttrs (fun _ : Unit => some (5, 30, 20)) (fun _ => "deadbeef")
        ⟨"new.png", none, none, none, none⟩ () := by
  refine ⟨rfl, ?_, ?_, ?_⟩
  · exact (scan_cache_hit_or_recompute (fun _ : Unit => some (5, 30, 20)) (fun _ => "deadbeef")
      [("photo.jpg", ⟨1690000000, some 1234, some 1920, some 1080, "ab12cd34"⟩)]
      "photo.jpg" () 1690000000).1 _ rfl rfl
  · exact (scan_cache_hit_or_recompute (fun _ : Unit => some (5, 30, 20)) (fun _ => "deadbeef")
      [("photo.jpg", ⟨1690000000, some 1234, some 1920, some 1080, "ab12cd34"⟩)]
      "photo.jpg" () 1690000500).2.1 _ rfl (by decide)
  · exact (scan_cache_hit_or_recompute (fun _ : Unit => some (5, 30, 20)) (fun _ => "deadbeef")
      [("photo.jpg", ⟨1690000000, some 1234, some 1920, some 1080, "ab12cd34"⟩)]
      "new.png" () 1690000000).2.2.1 rfl

/-! ## Cache file format: `write_cache` and `read_cache`

The cache file is UTF-8 text, one record per line, six tab-separated fields.
A line is modelled as its field list (the result of `l.strip().split('\t')`);
this is faithful whenever no field contains a tab or newline, which holds for
every field the writer produces except pathological filepaths. -/

/-- Field rendering `'%s' % (x or '')`: Python `or` treats both `None` and
`0` as falsy, so an absent value AND a stored `0` are written as the empty
field. -/
def orEmptyNat : Option Nat → String
  | none => ""
  | some n => if n = 0 then "" else natToDec n

/-- Field rendering `'%s' % fileinfo.crc32` (no `or ''` guard): a `None`
checksum is rendered as the four-character string `None`. -/
def strOfOptStr : Option String → String
  | some s => s
  | none => "None"

/-- The line `write_cache` emits for one record, as its six fields:
`path, mtime, phash-or-empty, width-or-empty, height-or-empty, crc32`. -/
def writeCacheFields (f : FileRecord) (mtime : Nat) : List String :=
  [f.filepath, natToDec mtime, orEmptyNat f.phash, orEmptyNat f.width,
   orEmptyNat f.height, strOfOptStr f.crc32]

/-- Embedding of `write_cache(fileinfos)`: an empty record list returns
before opening the file, leaving the previous disk contents (`disk`) in
place; otherwise `open(CACHE_FILE, 'w')` truncates and every record is
written with its mtime read from the filesystem (`mtimeOf`) at save time. -/
def write_cache (fileinfos : List FileRecord) (mtimeOf : String → Nat)
    (disk : List (List String)) : List (List String) :=
  if fileinfos.length = 0 then disk
  else fileinfos.map (fun f => writeCacheFields f (mtimeOf f.filepath))

/-- Parsing of an optional numeric field `int(line[i]) if line[i] else None`:
an empty field is `None` without parsing; a non-empty field must parse or the
line raises. -/
def parseOptNat (s : String) : Option (Option Nat) :=
  if s.data = [] then some none else (pyNat? s).map some

/-- Parsing of one cache line from its fields.  `none` models the exception
path: an `IndexError` from a missing field (`line[1]`..`line[5]`) or a
`ValueError` from `int(...)` on a non-numeric field. -/
def parseCacheLineFields (fields : List String) : Option (String × CacheEntry) :=
  match fields.get? 0, fields.get? 1, fields.get? 2, fields.get? 3,
      fields.get? 4, fields.get? 5 with
  | some p, some f1, some f2, some f3, some f4, some f5 =>
    match pyNat? f1, parseOptNat f2, parseOptNat f3, parseOptNat f4 with
    | some m, some ph, some w, some h => some (p, ⟨m, ph, w, h, f5⟩)
    | _, _, _, _ => none
  | _, _, _, _, _, _ => none

/-- Python dict assignment `cache[k] = e`: an existing key keeps its position
and gets the new value; a new key is appended. -/
def dictSet : List (String × CacheEntry) → String → CacheEntry → List (String × CacheEntry)
  | [], k, e => [(k, e)]
  | (k2, e2) :: rest, k, e =>
    if k2 = k then (k2, e) :: rest else (k2, e2) :: dictSet rest k e

/-- The line loop of `read_cache`.  On a parse failure the `except:` handler
executes `line.encode('utf-8')` — but `line` is the split LIST, which has no
`encode` attribute, so the handler itself raises `AttributeError`.  The
caller guards only against `ValueError`, so the error aborts the read (and
the run); `Except.error` models that. -/
def readCacheGo : List (List String) → List (String × CacheEntry) →
    Except String (List (String × CacheEntry))
  | [], acc => Except.ok acc
  | fields :: rest, acc =>
    match parseCacheLineFields fields with
    | some (k, e) => readCacheGo rest (dictSet acc k e)
    | none => Except.error "AttributeError"

/-- Embedding of `read_cache()` applied to the parsed lines of the cache
file. -/
def read_cache (lines : List (List String)) : Except String (List (String × CacheEntry)) :=
  readCacheGo lines []

/-- Modelled from the spec: a line that fails to parse is skipped with a
logged warning and the run continues, so loading returns exactly the entries
of the well-formed lines.  (This is what `read_cache` is specified to do; the
source's handler is broken, see `read_cache_aborts_on_malformed_line`.) -/
def specReadCacheSkipping (lines : List (List String)) : List (String × CacheEntry) :=
  lines.foldl
    (fun acc fields =>
      match parseCacheLineFields fields with
      | some (k, e) => dictSet acc k e
      | none => acc) []

/-- C7: a cache file whose lines all parse loads into exactly their entries,
but as soon as one malformed line appears (here a line with a single field,
which raises `IndexError` at `line[1]`), the broken warning printer raises
`AttributeError` and `read_cache` aborts instead of skipping the line — the
spec-modelled skipping reader would have kept the well-formed entry. -/
theorem read_cache_aborts_on_malformed_line :
    read_cache [["photo.jpg", "1690000000", "1234", "1920", "1080", "ab12cd34"]] =
      Except.ok [("photo.jpg", ⟨1690000000, some 1234, some 1920, some 1080, "ab12cd34"⟩)] ∧
    read_cache [["photo.jpg", "1690000000", "1234", "1920", "1080", "ab12cd34"], ["garbage"]] =
      Except.error "AttributeError" ∧
    specReadCacheSkipping
        [["photo.jpg", "1690000000", "1234", "1920", "1080", "ab12cd34"], ["garbage"]] =
      [("photo.jpg", ⟨1690000000, some 1234, some 1920, some 1080, "ab12cd34"⟩)] := by
  refine ⟨rfl, rfl, rfl⟩

theorem parseOptNat_orEmptyNat (o : Option Nat) (h : o ≠ some 0) :
    parseOptNat (orEmptyNat o) = some o := by
  cases o with
  | none => rfl
  | some n =>
    have hn : ¬ n = 0 := fun h0 => h (by rw [h0])
    simp only [orEmptyNat, if_neg hn, parseOptNat]
    rw [if_neg (by simpa [natToDec] using natToDecChars_ne_nil n)]
    rw [pyNat?_natToDec]
    rfl

/-- C6 counterexample: a record whose perceptual hash is the legitimate value
`0` (e.g. an all-black image: every DCT coefficient equals the mean, so every
bit is 0) is written through `phash or ''` as an empty field and read back as
ABSENT, not as the present value `0` — refuting "every present value
round-trips as the same present value". -/
theorem cache_roundtrip_zero_phash_counterexample :
    (⟨"black.png", some 0, some 4, some 3, some "00000000"⟩ : FileRecord).phash = some 0 ∧
    read_cache [writeCacheFields ⟨"black.png", some 0, some 4, some 3, some "00000000"⟩ 100] =
      Except.ok [("black.png", ⟨100, none, some 4, some 3, "00000000"⟩)] ∧
    (none : Option Nat) ≠ some 0 := by
  refine ⟨rfl, rfl, by decide⟩

/-- C6 amended: writing a record's attributes and reading them back (with the
same mtime) reproduces identical `phash`, `width`, `height`, `checksum`
values — absent fields round-trip as absent — PROVIDED no present numeric
attribute is `0`: a present `0` is written through `x or ''` as an empty
field and comes back absent. -/
theorem cache_roundtrip_amended
    (f : FileRecord) (m : Nat) (c : String) (hc : f.crc32 = some c)
    (hph : f.phash ≠ some 0) (hw : f.width ≠ some 0) (hh : f.height ≠ some 0) :
    read_cache [writeCacheFields f m] =
      Except.ok [(f.filepath, ⟨m, f.phash, f.width, f.height, c⟩)] := by
  have hparse : parseCacheLineFields (writeCacheFields f m) =
      some (f.filepath, ⟨m, f.phash, f.width, f.height, c⟩) := by
    simp only [writeCacheFields, parseCacheLineFields, List.get?, hc, strOfOptStr]
    rw [pyNat?_natToDec, parseOptNat_orEmptyNat f.phash hph,
      parseOptNat_orEmptyNat f.width hw, parseOptNat_orEmptyNat f.height hh]
  simp only [read_cache, readCacheGo, hparse]
  rfl

/-- Witness for the amended C6: the spec's example record round-trips
exactly. -/
theorem cache_roundtrip_amended_witness :
    (⟨"photo.jpg", some 1234, some 1920, some 1080, some "ab12cd34"⟩ : FileRecord).crc32 =
      some "ab12cd34" ∧
    read_cache [writeCacheFields
        ⟨"photo.jpg", some 1234, some 1920, some 1080, some "ab12cd34"⟩ 1690000000] =
      Except.ok [("photo.jpg", ⟨1690000000, some 1234, some 1920, some 1080, "ab12cd34"⟩)] := by
  refine ⟨rfl, ?_⟩
  exact cache_roundtrip_amended
    ⟨"photo.jpg", some 1234, some 1920, some 1080, some "ab12cd34"⟩ 1690000000
    "ab12cd34" rfl (by decide) (by decide) (by decide)

/-- C8 counterexample: saving an EMPTY record collection does not rewrite the
persisted table — `write_cache` returns before opening the file, so a stale
line from a previous run survives, refuting "including the empty collection
... the on-disk cache contains exactly one line per current record and
nothing else". -/
theorem write_cache_empty_counterexample :
    write_cache [] (fun _ => 0) [["stale.jpg", "1", "", "", "", "aa"]] =
      [["stale.jpg", "1", "", "", "", "aa"]] ∧
    [["stale.jpg", "1", "", "", "", "aa"]] ≠ ([] : List (List String)) := by
  refine ⟨rfl, by decide⟩

/-- C8 amended: for every NONEMPTY record collection, `write_cache` rewrites
the persisted table from scratch: the result is exactly one line per current
record (keyed by its save-time mtime), independent of the previous disk
contents, so no stale or duplicate entry survives; for the empty collection
the previous disk contents are left untouched. -/
theorem write_cache_full_rewrite
    (fileinfos : List FileRecord) (mtimeOf : String → Nat) (disk : List (List String))
    (h : fileinfos ≠ []) :
    write_cache fileinfos mtimeOf disk =
      fileinfos.map (fun f => writeCacheFields f (mtimeOf f.filepath)) ∧
    (write_cache fileinfos mtimeOf disk).length = fileinfos.length := by
  have hlen : ¬ fileinfos.length = 0 := by
    simpa using fun hh => h (List.length_eq_zero.mp hh)
  constructor
  · simp [write_cache, hlen]
  · simp [write_cache, hlen]

/-- Witness for the amended C8: one record, a stale line on disk; the save
produces exactly that record's line and the stale line is gone. -/
theorem write_cache_full_rewrite_witness :
    ([(⟨"new.png", some 7, some 2, some 3, some "bb"⟩ : FileRecord)] ≠ []) ∧
    write_cache [⟨"new.png", some 7, some 2, some 3, some "bb"⟩] (fun _ => 42)
        [["stale.jpg", "1", "", "", "", "aa"]] =
      [writeCacheFields ⟨"new.png", some 7, some 2, some 3, some "bb"⟩ 42] ∧
    (write_cache [⟨"new.png", some 7, some 2, some 3, some "bb"⟩] (fun _ => 42)
        [["stale.jpg", "1", "", "", "", "aa"]]).length = 1 := by
  refine ⟨by decide, ?_, ?_⟩
  · exact (write_cache_full_rewrite [⟨"new.png", some 7, some 2, some 3, some "bb"⟩]
      (fun _ => 42) [["stale.jpg", "1", "", "", "", "aa"]] (by decide)).1
  · exact (write_cache_full_rewrite [⟨"new.png", some 7, some 2, some 3, some "bb"⟩]
      (fun _ => 42) [["stale.jpg", "1", "", "", "", "aa"]] (by decide)).2

/-! ## The similarity threshold flag -/

/-- Modelled from the spec: in image-content mode an edge joins two hashes
iff their Hamming distance is strictly below the configurable CLI
`--threshold` value (default 8).  The source instead compares against the
module constant `SIMILARITY_THRESH` at the edge test and never reads the
parsed `threshold` value — accordingly `buildAdjacency` takes no threshold
parameter at all. -/
def specSimilarityEdge (threshold : Nat) (pa pb : Nat) : Bool :=
  decide (hamming pa pb < threshold)

/-- C5: the CLI threshold has no effect on edge construction.  Two files with
hashes `0` and `15` (Hamming distance 4) are always linked by the scan
because `4 < SIMILARITY_THRESH = 8`, even though the spec-modelled predicate
with a user-supplied threshold of 1 yields no edge.  (`get_args` defines the
`-t` and `--threshold` options, but the grouping loop never consults the
parsed value.) -/
theorem similarity_edge_ignores_cli_threshold :
    buildAdjacency [⟨"a.png", some 0, none, none, none⟩, ⟨"b.png", some 15, none, none, none⟩] =
      [(⟨"a.png", some 0, none, none, none⟩, [⟨"b.png", some 15, none, none, none⟩]),
       (⟨"b.png", some 15, none, none, none⟩, [⟨"a.png", some 0, none, none, none⟩])] ∧
    hamming 0 15 = 4 ∧
    specSimilarityEdge 1 0 15 = false ∧
    specSimilarityEdge SIMILARITY_THRESH 0 15 = true := by
  refine ⟨rfl, rfl, rfl, rfl⟩

/-! ## Relocation loop, rename-in-place branch (C10) -/

/-- The list comprehension `[i for i, f in enumerate(fileinfos) if f.filepath
== duplicate_filepath][0]` followed by the in-place assignment
`fileinfos[idx].filepath = new_duplicate_filepath`: update the first record
matching the old path. -/
def updateFirst : List FileRecord → String → String → List FileRecord
  | [], _, _ => []
  | f :: rest, old, new =>
    if f.filepath = old then { f with filepath := new } :: rest
    else f :: updateFirst rest old new

/-- Embedding of one iteration of the rename-in-place branch of the
relocation loop (`move_suspected_duplicates` false), for the duplicate at
group index `i`:

    new_duplicate_filepath = '%s_v%d%s' % (master_stem, i, ext(duplicate))
    fileinfos[idx].filepath = new_duplicate_filepath
    safely_move_file(duplicate_fileinfo, new_duplicate_filepath)

`fileinfos[idx]` and `duplicate_fileinfo` are the SAME Python object (the
index is found by matching `duplicate_filepath`, and scan paths are unique),
so the assignment above also changes `duplicate_fileinfo.filepath`; the
subsequent `safely_move_file` call therefore reads `new_duplicate_filepath`
as its SOURCE path, which is why the embedding passes `newPath` as both
source and target of the move. -/
def renameDuplicateInPlaceStep (fs : List (String × Nat)) (fileinfos : List FileRecord)
    (masterStemNoExt : String) (i : Nat) (dup : FileRecord) :
    MoveResult × List FileRecord :=
  let ext := (pySplitext dup.filepath).2
  let newPath := masterStemNoExt ++ "_v" ++ natToDec i ++ ext
  let fileinfos2 := updateFirst fileinfos dup.filepath newPath
  (safely_move_file (fs.length + 1) fs newPath newPath, fileinfos2)

/-- C10: in rename-in-place mode the record list that feeds the final
`write_cache` is keyed by the INTENDED destination (`a_v1.png`) before the
move happens, and because the record aliasing rewrites the move's source
path, the `os.rename` call targets a source path at which no file exists and
raises (`MoveResult.renameError`): the final cache save never reflects the
path at which the file actually resides.  Concretely: master `a.png`,
duplicate `b.png`, both on disk. -/
theorem rename_in_place_keys_cache_by_intended_path :
    renameDuplicateInPlaceStep [("a.png", 10), ("b.png", 20)]
      [⟨"a.png", some 3, some 4, some 4, some "aa"⟩,
       ⟨"b.png", some 3, some 2, some 2, some "bb"⟩]
      "a" 1 ⟨"b.png", some 3, some 2, some 2, some "bb"⟩ =
      (MoveResult.renameError,
       [⟨"a.png", some 3, some 4, some 4, some "aa"⟩,
        ⟨"a_v1.png", some 3, some 2, some 2, some "bb"⟩]) ∧
    pyExists [("a.png", 10), ("b.png", 20)] "a_v1.png" = false := by
  refine ⟨rfl, rfl⟩

end Cleanup
